import Mathlib

/-!
Verification of the tiling / size-derivation / clipping pipeline of
`src/lab/download-phoenix-imagery.py`.

Modelling conventions:
* Python floats are modelled as exact rationals (`ℚ`); the literal `1e-9`
  appearing in `compute_size_from_bbox_and_pixels` is modelled as `1 / 10 ^ 9`.
* Python ints are modelled as `ℤ` (loop counters for `range` as `ℕ`).
* Python's built-in `round` (round half to even, returning an int) is
  modelled by `pyRound`.
* `math.ceil(a / b)` on positive ints is modelled as `⌈(a : ℚ) / b⌉`.
* A 4-tuple bbox `(x1, y1, x2, y2)` is modelled by the structure `BBox`.
* Shapely's `box(...).intersection(...)` of two closed axis-aligned
  rectangles is empty iff the point sets are disjoint; touching rectangles
  yield a degenerate (zero-area) but non-empty geometry whose `.bounds` is
  `(max x1s, max y1s, min x2s, min y2s)`.  `clip_bbox_to_service_extent`
  is modelled accordingly, with the network-fetched `extent` field of the
  service metadata passed in as an `Option BBox` parameter and a raised
  `ValueError` modelled as `Except.error`.
-/

namespace PhoenixImagery

/-- An axis-aligned bounding rectangle `(x1, y1, x2, y2)`, as the 4-tuples
used throughout the script. -/
structure BBox where
  x1 : ℚ
  y1 : ℚ
  x2 : ℚ
  y2 : ℚ
deriving DecidableEq, Repr

/-- Membership of a point `(px, py)` in the closed rectangle `b`. -/
def memRect (b : BBox) (px py : ℚ) : Prop :=
  b.x1 ≤ px ∧ px ≤ b.x2 ∧ b.y1 ≤ py ∧ py ≤ b.y2

/-- Membership of a point `(px, py)` in the open interior of rectangle `b`. -/
def memRectInterior (b : BBox) (px py : ℚ) : Prop :=
  b.x1 < px ∧ px < b.x2 ∧ b.y1 < py ∧ py < b.y2

/-- Width `x2 - x1` of a rectangle. -/
def rectWidth (b : BBox) : ℚ := b.x2 - b.x1

/-- Height `y2 - y1` of a rectangle. -/
def rectHeight (b : BBox) : ℚ := b.y2 - b.y1

/-- Area of a rectangle. -/
def rectArea (b : BBox) : ℚ := (b.x2 - b.x1) * (b.y2 - b.y1)

/-- Python's built-in `round` on an exact rational: round to the nearest
integer, ties to the even integer. -/
def pyRound (q : ℚ) : ℤ :=
  if Int.fract q < 1 / 2 then ⌊q⌋
  else if 1 / 2 < Int.fract q then ⌊q⌋ + 1
  else if ⌊q⌋ % 2 = 0 then ⌊q⌋ else ⌊q⌋ + 1

/-- The literal `1e-9` used as a degeneracy clamp in
`compute_size_from_bbox_and_pixels` (line 182-183 of the script). -/
def epsClamp : ℚ := 1 / 10 ^ 9

/-- Embedding of `compute_size_from_bbox_and_pixels` (lines 176-186):
`w = max(1e-9, x2 - x1)`, `h = max(1e-9, y2 - y1)`,
`width = max(1, int(round(w / pix_x)))`, `height = max(1, int(round(h / pix_y)))`,
returning `(width, height)`. -/
def compute_size_from_bbox_and_pixels (bbox_native : BBox) (pix_x pix_y : ℚ) : ℤ × ℤ :=
  let w := max epsClamp (bbox_native.x2 - bbox_native.x1)
  let h := max epsClamp (bbox_native.y2 - bbox_native.y1)
  (max 1 (pyRound (w / pix_x)), max 1 (pyRound (h / pix_y)))

/-- Embedding of `tile_counts` (lines 189-192):
`nx = math.ceil(width / max_w) if width > max_w else 1` and likewise for `ny`. -/
def tile_counts (width height max_w max_h : ℤ) : ℤ × ℤ :=
  (if max_w < width then ⌈(width : ℚ) / (max_w : ℚ)⌉ else 1,
   if max_h < height then ⌈(height : ℚ) / (max_h : ℚ)⌉ else 1)

/-- Embedding of `subdivide_bbox` (lines 195-203): `dx = (x2 - x1) / nx`,
`dy = (y2 - y1) / ny`, and the double loop `for iy in range(ny): for ix in
range(nx)` appending `(x1 + ix*dx, y1 + iy*dy, x1 + (ix+1)*dx, y1 + (iy+1)*dy)`. -/
def subdivide_bbox (bbox_native : BBox) (nx ny : ℕ) : List BBox :=
  let dx := (bbox_native.x2 - bbox_native.x1) / (nx : ℚ)
  let dy := (bbox_native.y2 - bbox_native.y1) / (ny : ℚ)
  (List.range ny).flatMap fun (iy : ℕ) =>
    (List.range nx).map fun (ix : ℕ) =>
      ⟨bbox_native.x1 + (ix : ℚ) * dx, bbox_native.y1 + (iy : ℚ) * dy,
       bbox_native.x1 + ((ix : ℚ) + 1) * dx, bbox_native.y1 + ((iy : ℚ) + 1) * dy⟩

/-- Embedding of `clip_bbox_to_service_extent` (lines 164-173).  The service
metadata's optional `extent` field (fetched over HTTP in the script) is the
`extent` parameter; `if not ext: return bbox_native` is the `none` branch.
Otherwise the shapely intersection of the two closed rectangles is taken:
it is empty (raising `ValueError`) iff the rectangles are disjoint as point
sets, i.e. iff on some axis the smaller maximum is strictly below the larger
minimum; otherwise its `.bounds` is the componentwise max/min rectangle. -/
def clip_bbox_to_service_extent (bbox_native : BBox) (extent : Option BBox) :
    Except String BBox :=
  match extent with
  | none => Except.ok bbox_native
  | some e =>
    if min bbox_native.x2 e.x2 < max bbox_native.x1 e.x1 ∨
       min bbox_native.y2 e.y2 < max bbox_native.y1 e.y1 then
      Except.error "Requested bbox is outside the service extent."
    else
      Except.ok ⟨max bbox_native.x1 e.x1, max bbox_native.y1 e.y1,
                 min bbox_native.x2 e.x2, min bbox_native.y2 e.y2⟩

/-- The tile-planning pipeline of `run_bbox_mode` (lines 305-307) and
`run_csv_mode` (lines 382-384): compute the total pixel grid, then the tile
counts, then subdivide the native rectangle. -/
def plan_tiles (bbox_native : BBox) (pix_x pix_y : ℚ) (max_w max_h : ℤ) :
    List BBox :=
  let wh := compute_size_from_bbox_and_pixels bbox_native pix_x pix_y
  let n := tile_counts wh.1 wh.2 max_w max_h
  subdivide_bbox bbox_native n.1.toNat n.2.toNat

/-- The square bbox built around a buffered point in `run_csv_mode`
(lines 375-378): `minx = x - buf_dist`, `maxx = x + buf_dist`,
`miny = y - buf_dist`, `maxy = y + buf_dist`. -/
def buffered_point_bbox (x y buf_dist : ℚ) : BBox :=
  ⟨x - buf_dist, y - buf_dist, x + buf_dist, y + buf_dist⟩

/-- The fields of `ServiceInfo` (lines 85-94) relevant to export requests. -/
structure ServiceInfo where
  wkid : ℤ
  max_w : ℤ
  max_h : ℤ
  pixel_size_x : Option ℚ
  pixel_size_y : Option ℚ
deriving DecidableEq, Repr

/-- The request parameter dictionary built by `export_image` (lines 234-244);
string formatting of the bbox coordinates and pixel size is delegated, the
structure keeps the raw values for those two fields. -/
structure ExportParams where
  f : String
  bbox : BBox
  bboxSR : String
  imageSR : String
  size : ℤ × ℤ
  format : String
  interpolation : String
  token : Option String
deriving DecidableEq, Repr

/-- Embedding of the parameter construction in `export_image` (lines 234-244):
`bboxSR = str(service.wkid)`, `imageSR = str(service.wkid)`,
`interpolation = "RSP_NearestNeighbor"`, `format = "tiff"`, `f = "image"`. -/
def export_image_params (service : ServiceInfo) (bbox_native : BBox)
    (size : ℤ × ℤ) (token : Option String) : ExportParams :=
  { f := "image"
    bbox := bbox_native
    bboxSR := toString service.wkid
    imageSR := toString service.wkid
    size := size
    format := "tiff"
    interpolation := "RSP_NearestNeighbor"
    token := token }

/-- Observable events of the export/mosaic/cleanup control flow of
`run_bbox_mode` (lines 311-330) and the per-row body of `run_csv_mode`
(lines 386-404). -/
inductive ExportEvent where
  | exported (i : ℕ)
  | exportFailed (i : ℕ)
  | wroteCog
  | unlinkAttempted (i : ℕ) (failed : Bool)
deriving DecidableEq, Repr

/-- The sequential export loop (lines 312-317): tiles are exported one at a
time; a raised exception in `export_image` aborts the whole run (there is no
`try`/`finally` around the loop). -/
def export_loop (exportFails : ℕ → Bool) : List ℕ → List ExportEvent × Bool
  | [] => ([], true)
  | i :: rest =>
    if exportFails i then ([ExportEvent.exportFailed i], false)
    else
      let r := export_loop exportFails rest
      (ExportEvent.exported i :: r.1, r.2)

/-- Control-flow model of `run_bbox_mode` lines 311-330: export every tile in
order (aborting on the first failure), then write the COG, then, unless
`keep_parts` is set, attempt to unlink every part inside `try ... except
Exception: pass` — each unlink is attempted and its failure (recorded by
`unlinkFails`) is swallowed, never altering control flow.  Returns the event
trace and whether the run completed successfully. -/
def run_bbox_model (n : ℕ) (exportFails : ℕ → Bool) (keep_parts : Bool)
    (unlinkFails : ℕ → Bool) : List ExportEvent × Bool :=
  let r := export_loop exportFails (List.range n)
  if r.2 then
    let evs := r.1 ++ [ExportEvent.wroteCog]
    if keep_parts then (evs, true)
    else (evs ++ (List.range n).map (fun i => ExportEvent.unlinkAttempted i (unlinkFails i)), true)
  else (r.1, false)

/-! ### Helper lemmas about `pyRound` -/

/-- `pyRound` never rounds up by more than one half. -/
theorem pyRound_le_add_half (q : ℚ) : (pyRound q : ℚ) ≤ q + 1 / 2 := by
  have hfl := Int.floor_add_fract q
  have h0 := Int.fract_nonneg q
  unfold pyRound
  split_ifs with hc1 hc2 hc3
  · linarith
  · push_cast
    linarith
  · linarith [le_of_not_lt hc1]
  · push_cast
    linarith [le_of_not_lt hc2]

/-- `pyRound` never rounds down by more than one half. -/
theorem sub_half_le_pyRound (q : ℚ) : q - 1 / 2 ≤ (pyRound q : ℚ) := by
  have hfl := Int.floor_add_fract q
  have h1 := Int.fract_lt_one q
  unfold pyRound
  split_ifs with hc1 hc2 hc3
  · linarith
  · push_cast
    linarith
  · linarith [le_of_not_lt hc2]
  · push_cast
    linarith

/-- Strict half-bound on the argument forces the rounded value under `z`. -/
theorem pyRound_le_of_lt_add_half {q : ℚ} {z : ℤ} (h : q < (z : ℚ) + 1 / 2) :
    pyRound q ≤ z := by
  have h1 := pyRound_le_add_half q
  have h2 : ((pyRound q : ℤ) : ℚ) < ((z : ℤ) : ℚ) + 1 := by linarith
  have h3 : pyRound q < z + 1 := by exact_mod_cast h2
  exact Int.lt_add_one_iff.mp h3

/-- `pyRound` is the identity on integers. -/
theorem pyRound_intCast (z : ℤ) : pyRound (z : ℚ) = z := by
  unfold pyRound
  rw [Int.fract_intCast, Int.floor_intCast]
  norm_num

/-- Evaluation helper: `pyRound` of an integer-valued rational. -/
theorem pyRound_intValue (a : ℚ) (z : ℤ) (h : a = (z : ℚ)) : pyRound a = z := by
  rw [h, pyRound_intCast]

/-- Evaluation helper: ceiling of an integer-valued rational. -/
theorem ceil_intValue (a : ℚ) (z : ℤ) (h : a = (z : ℚ)) : ⌈a⌉ = z := by
  rw [h, Int.ceil_intCast]

/-! ### Helper lemmas about `subdivide_bbox` -/

/-- The sub-rectangle of `b` at column `ix`, row `iy` of an `nx × ny`
uniform subdivision (the tuple appended by `subdivide_bbox`). -/
def tileAt (b : BBox) (nx ny ix iy : ℕ) : BBox :=
  ⟨b.x1 + ix * ((b.x2 - b.x1) / (nx : ℚ)),
   b.y1 + iy * ((b.y2 - b.y1) / (ny : ℚ)),
   b.x1 + (ix + 1) * ((b.x2 - b.x1) / (nx : ℚ)),
   b.y1 + (iy + 1) * ((b.y2 - b.y1) / (ny : ℚ))⟩

/-- A double loop over `range ny` and `range nx` enumerates the row-major
indices `k = iy * nx + ix` of `range (ny * nx)`. -/
theorem range_flatMap_map {α : Type} (f : ℕ → ℕ → α) (nx : ℕ) (hnx : 0 < nx) :
    ∀ ny : ℕ, (List.range ny).flatMap (fun iy => (List.range nx).map (f iy)) =
      (List.range (ny * nx)).map fun k => f (k / nx) (k % nx)
  | 0 => by simp
  | ny + 1 => by
    have ih := range_flatMap_map f nx hnx ny
    rw [List.range_succ, List.flatMap_append, ih]
    have h1 : (ny + 1) * nx = ny * nx + nx := by ring
    rw [h1, List.range_add, List.map_append]
    congr 1
    · simp only [List.flatMap_cons, List.flatMap_nil, List.append_nil, List.map_map]
      apply List.map_congr_left
      intro i hi
      have hlt : i < nx := List.mem_range.mp hi
      have hdiv : (ny * nx + i) / nx = ny := by
        rw [Nat.add_comm, Nat.mul_comm, Nat.add_mul_div_left _ _ hnx,
          Nat.div_eq_of_lt hlt, Nat.zero_add]
      have hmod : (ny * nx + i) % nx = i := by
        rw [Nat.add_comm, Nat.mul_comm, Nat.add_mul_mod_self_left,
          Nat.mod_eq_of_lt hlt]
      simp only [Function.comp_apply, hdiv, hmod]

/-- `subdivide_bbox` as a row-major indexed enumeration of `tileAt`. -/
theorem subdivide_bbox_eq_map (b : BBox) (nx ny : ℕ) (hnx : 0 < nx) :
    subdivide_bbox b nx ny =
      (List.range (ny * nx)).map fun k => tileAt b nx ny (k % nx) (k / nx) := by
  have h := range_flatMap_map (fun iy ix =>
    (⟨b.x1 + (ix : ℚ) * ((b.x2 - b.x1) / (nx : ℚ)),
      b.y1 + (iy : ℚ) * ((b.y2 - b.y1) / (ny : ℚ)),
      b.x1 + ((ix : ℚ) + 1) * ((b.x2 - b.x1) / (nx : ℚ)),
      b.y1 + ((iy : ℚ) + 1) * ((b.y2 - b.y1) / (ny : ℚ))⟩ : BBox)) nx hnx ny
  simpa only [subdivide_bbox, tileAt] using h

/-- Membership characterization of `subdivide_bbox`. -/
theorem mem_subdivide_bbox {b : BBox} {nx ny : ℕ} {t : BBox} :
    t ∈ subdivide_bbox b nx ny ↔ ∃ iy < ny, ∃ ix < nx, t = tileAt b nx ny ix iy := by
  unfold subdivide_bbox tileAt
  simp only [List.mem_flatMap, List.mem_map, List.mem_range]
  constructor
  · rintro ⟨iy, hiy, ix, hix, rfl⟩
    exact ⟨iy, hiy, ix, hix, rfl⟩
  · rintro ⟨iy, hiy, ix, hix, rfl⟩
    exact ⟨iy, hiy, ix, hix, rfl⟩

/-- Covering a 1-D interval `[a, a + n·d]` by the `n` segments
`[a + i·d, a + (i+1)·d]`. -/
theorem exists_seg : ∀ (n : ℕ) (a d p : ℚ), 0 < n → a ≤ p → p ≤ a + n * d →
    ∃ i < n, a + i * d ≤ p ∧ p ≤ a + (i + 1) * d
  | 0, _, _, _, hn, _, _ => absurd hn (by omega)
  | n + 1, a, d, p, _, h1, h2 => by
    rcases Nat.eq_zero_or_pos n with hn0 | hnpos
    · subst hn0
      refine ⟨0, Nat.zero_lt_one, by simpa using h1, ?_⟩
      push_cast at h2 ⊢
      linarith
    · by_cases hp : p ≤ a + n * d
      · obtain ⟨i, hi, hle, hge⟩ := exists_seg n a d p hnpos h1 hp
        exact ⟨i, Nat.lt_succ_of_lt hi, hle, hge⟩
      · refine ⟨n, Nat.lt_succ_self n, le_of_lt ?_, ?_⟩
        · exact lt_of_not_le hp
        · push_cast at h2 ⊢
          linarith

/-- Distinct segments of a positive-step 1-D subdivision have disjoint open
interiors. -/
theorem seg_interior_disjoint {a d : ℚ} (hd : 0 < d) {i j : ℕ} (hij : i ≠ j) (p : ℚ)
    (hi : a + i * d < p ∧ p < a + (i + 1) * d)
    (hj : a + j * d < p ∧ p < a + (j + 1) * d) : False := by
  rcases Nat.lt_or_ge i j with h | h
  · have hle : ((i : ℚ) + 1) ≤ (j : ℚ) := by exact_mod_cast Nat.succ_le_of_lt h
    have := mul_le_mul_of_nonneg_right hle (le_of_lt hd)
    linarith [hi.2, hj.1]
  · have hji : j < i := lt_of_le_of_ne h (Ne.symm hij)
    have hle : ((j : ℚ) + 1) ≤ (i : ℚ) := by exact_mod_cast Nat.succ_le_of_lt hji
    have := mul_le_mul_of_nonneg_right hle (le_of_lt hd)
    linarith [hj.2, hi.1]

/-- Row-major index decomposition: `(iy * nx + ix) / nx = iy` and
`(iy * nx + ix) % nx = ix` when `ix < nx`. -/
theorem div_mod_rowmajor {nx ix : ℕ} (iy : ℕ) (hnx : 0 < nx) (hix : ix < nx) :
    (iy * nx + ix) / nx = iy ∧ (iy * nx + ix) % nx = ix := by
  constructor
  · rw [Nat.add_comm, Nat.mul_comm, Nat.add_mul_div_left _ _ hnx,
      Nat.div_eq_of_lt hix, Nat.zero_add]
  · rw [Nat.add_comm, Nat.mul_comm, Nat.add_mul_mod_self_left, Nat.mod_eq_of_lt hix]

/-- C1: subdividing a nondegenerate native rectangle into `nx ≥ 1` columns and
`ny ≥ 1` rows yields exactly `nx * ny` sub-rectangles, listed in row-major
order (the tile at list index `iy * nx + ix` is column `ix` of row `iy`,
bottom row first), each of size `width/nx` by `height/ny`; the tiles lie
inside the parent, cover every point of the parent, have pairwise disjoint
interiors, and their areas sum exactly to the parent's area. -/
theorem subdivide_bbox_partitions (b : BBox) (nx ny : ℕ)
    (hx : b.x1 < b.x2) (hy : b.y1 < b.y2) (hnx : 1 ≤ nx) (hny : 1 ≤ ny) :
    (subdivide_bbox b nx ny).length = nx * ny ∧
    (∀ ix iy : ℕ, ix < nx → iy < ny →
      (subdivide_bbox b nx ny)[iy * nx + ix]? = some (tileAt b nx ny ix iy)) ∧
    (∀ t ∈ subdivide_bbox b nx ny,
      rectWidth t = rectWidth b / nx ∧ rectHeight t = rectHeight b / ny) ∧
    (∀ t ∈ subdivide_bbox b nx ny, ∀ px py, memRect t px py → memRect b px py) ∧
    (∀ px py, memRect b px py → ∃ t ∈ subdivide_bbox b nx ny, memRect t px py) ∧
    (∀ (k l : ℕ) (t u : BBox), k ≠ l →
      (subdivide_bbox b nx ny)[k]? = some t →
      (subdivide_bbox b nx ny)[l]? = some u →
      ∀ px py, ¬ (memRectInterior t px py ∧ memRectInterior u px py)) ∧
    ((subdivide_bbox b nx ny).map rectArea).sum = rectArea b := by
  have hnx0 : 0 < nx := hnx
  have hny0 : 0 < ny := hny
  have hnxQ : (0 : ℚ) < (nx : ℚ) := by exact_mod_cast hnx0
  have hnyQ : (0 : ℚ) < (ny : ℚ) := by exact_mod_cast hny0
  set dx : ℚ := (b.x2 - b.x1) / (nx : ℚ) with hdx_def
  set dy : ℚ := (b.y2 - b.y1) / (ny : ℚ) with hdy_def
  have hdx : 0 < dx := div_pos (sub_pos.mpr hx) hnxQ
  have hdy : 0 < dy := div_pos (sub_pos.mpr hy) hnyQ
  have hxe : (nx : ℚ) * dx = b.x2 - b.x1 := by
    rw [hdx_def]; field_simp
  have hye : (ny : ℚ) * dy = b.y2 - b.y1 := by
    rw [hdy_def]; field_simp
  have hmap := subdivide_bbox_eq_map b nx ny hnx0
  refine ⟨?_, ?_, ?_, ?_, ?_, ?_, ?_⟩
  · rw [hmap, List.length_map, List.length_range, Nat.mul_comm]
  · intro ix iy hix hiy
    have hlt : iy * nx + ix < ny * nx := by
      calc iy * nx + ix < iy * nx + nx := by omega
        _ = (iy + 1) * nx := by ring
        _ ≤ ny * nx := Nat.mul_le_mul_right nx (Nat.succ_le_of_lt hiy)
    rw [hmap, List.getElem?_map, List.getElem?_range hlt, Option.map_some']
    obtain ⟨hdiv, hmod⟩ := div_mod_rowmajor iy hnx0 hix
    rw [hdiv, hmod]
  · intro t ht
    obtain ⟨iy, hiy, ix, hix, rfl⟩ := mem_subdivide_bbox.mp ht
    unfold tileAt rectWidth rectHeight
    constructor <;> ring
  · intro t ht px py hmem
    obtain ⟨iy, hiy, ix, hix, rfl⟩ := mem_subdivide_bbox.mp ht
    unfold tileAt memRect at hmem
    obtain ⟨h1, h2, h3, h4⟩ := hmem
    have hixQ : (ix : ℚ) + 1 ≤ (nx : ℚ) := by exact_mod_cast hix
    have hiyQ : (iy : ℚ) + 1 ≤ (ny : ℚ) := by exact_mod_cast hiy
    have hix0 : (0 : ℚ) ≤ (ix : ℚ) := Nat.cast_nonneg ix
    have hiy0 : (0 : ℚ) ≤ (iy : ℚ) := Nat.cast_nonneg iy
    have hx1 := mul_nonneg hix0 hdx.le
    have hy1 := mul_nonneg hiy0 hdy.le
    have hx2 := mul_le_mul_of_nonneg_right hixQ hdx.le
    have hy2 := mul_le_mul_of_nonneg_right hiyQ hdy.le
    exact ⟨by linarith, by linarith, by linarith, by linarith⟩
  · intro px py hmem
    obtain ⟨h1, h2, h3, h4⟩ := hmem
    obtain ⟨ix, hix, hxl, hxr⟩ :=
      exists_seg nx b.x1 dx px hnx0 h1 (by linarith)
    obtain ⟨iy, hiy, hyl, hyr⟩ :=
      exists_seg ny b.y1 dy py hny0 h3 (by linarith)
    refine ⟨tileAt b nx ny ix iy, mem_subdivide_bbox.mpr ⟨iy, hiy, ix, hix, rfl⟩, ?_⟩
    exact ⟨hxl, hxr, hyl, hyr⟩
  · intro k l t u hkl hk hl px py hboth
    rw [hmap] at hk hl
    obtain ⟨hklen, hkt⟩ := List.getElem?_eq_some.mp hk
    obtain ⟨hllen, hlu⟩ := List.getElem?_eq_some.mp hl
    rw [List.getElem_map, List.getElem_range] at hkt hlu
    rw [List.length_map, List.length_range] at hklen hllen
    obtain ⟨hint1, hint2⟩ := hboth
    subst hkt hlu
    unfold tileAt memRectInterior at hint1 hint2
    by_cases hxeq : k % nx = l % nx
    · have hyne : k / nx ≠ l / nx := by
        intro hyeq
        apply hkl
        have h1 := Nat.div_add_mod k nx
        have h2 := Nat.div_add_mod l nx
        rw [← hyeq, ← hxeq] at h2
        omega
      exact seg_interior_disjoint hdy hyne py ⟨hint1.2.2.1, hint1.2.2.2⟩
        ⟨hint2.2.2.1, hint2.2.2.2⟩
    · exact seg_interior_disjoint hdx hxeq px ⟨hint1.1, hint1.2.1⟩
        ⟨hint2.1, hint2.2.1⟩
  · rw [hmap, List.map_map]
    have hconst : ((List.range (ny * nx)).map
        (rectArea ∘ fun k => tileAt b nx ny (k % nx) (k / nx))) =
        (List.range (ny * nx)).map (fun _ => dx * dy) := by
      apply List.map_congr_left
      intro k _
      simp only [Function.comp_apply]
      unfold tileAt rectArea
      ring
    rw [hconst, List.map_const', List.sum_replicate, List.length_range, nsmul_eq_mul]
    push_cast
    rw [hdx_def, hdy_def]
    unfold rectArea
    field_simp
    ring

/-- Witness for C1 at the rectangle `(0, 0, 3, 2)` with a `2 × 2` subdivision. -/
theorem subdivide_bbox_partitions_witness :
    ((⟨0, 0, 3, 2⟩ : BBox).x1 < (⟨0, 0, 3, 2⟩ : BBox).x2 ∧
      (⟨0, 0, 3, 2⟩ : BBox).y1 < (⟨0, 0, 3, 2⟩ : BBox).y2 ∧ 1 ≤ 2) ∧
    (subdivide_bbox ⟨0, 0, 3, 2⟩ 2 2).length = 2 * 2 ∧
    ((subdivide_bbox (⟨0, 0, 3, 2⟩ : BBox) 2 2).map rectArea).sum =
      rectArea (⟨0, 0, 3, 2⟩ : BBox) :=
  ⟨⟨by norm_num, by norm_num, by norm_num⟩,
    (subdivide_bbox_partitions ⟨0, 0, 3, 2⟩ 2 2 (by norm_num) (by norm_num)
      (by norm_num) (by norm_num)).1,
    (subdivide_bbox_partitions ⟨0, 0, 3, 2⟩ 2 2 (by norm_num) (by norm_num)
      (by norm_num) (by norm_num)).2.2.2.2.2.2⟩

/-- Unfolding of the first component of `compute_size_from_bbox_and_pixels`. -/
theorem compute_size_fst (b : BBox) (pix_x pix_y : ℚ) :
    (compute_size_from_bbox_and_pixels b pix_x pix_y).1 =
      max 1 (pyRound (max epsClamp (b.x2 - b.x1) / pix_x)) := rfl

/-- Unfolding of the second component of `compute_size_from_bbox_and_pixels`. -/
theorem compute_size_snd (b : BBox) (pix_x pix_y : ℚ) :
    (compute_size_from_bbox_and_pixels b pix_x pix_y).2 =
      max 1 (pyRound (max epsClamp (b.y2 - b.y1) / pix_y)) := rfl

/-- Each component computed by `tile_counts` is at least `1` when the
corresponding maximum is. -/
theorem one_le_axis_count (w m : ℤ) (hm : 1 ≤ m) :
    1 ≤ (if m < w then ⌈(w : ℚ) / (m : ℚ)⌉ else 1) := by
  split_ifs with h
  · have hmQ : (0 : ℚ) < (m : ℚ) := by exact_mod_cast lt_of_lt_of_le Int.zero_lt_one hm
    have hwm : (1 : ℚ) < (w : ℚ) / (m : ℚ) := by
      rw [one_lt_div hmQ]
      exact_mod_cast h
    have h1 : (1 : ℤ) < ⌈(w : ℚ) / (m : ℚ)⌉ := Int.lt_ceil.mpr (by exact_mod_cast hwm)
    omega
  · exact le_refl 1

/-- Core per-axis bound: along one axis, if the total pixel count is derived
by the rounding rule, the tile count `n` by `tile_counts`' rule, and the
per-tile length `L / n` is not below the `1e-9` degeneracy clamp, then the
tile's recomputed pixel count stays within the per-axis maximum `m`. -/
theorem axis_tile_px_le {L pix : ℚ} {m : ℤ} (_hpix : 0 < pix) (hm : 1 ≤ m)
    (hL : 0 < L) (n : ℤ)
    (hn : n = if m < max 1 (pyRound (max epsClamp L / pix)) then
        ⌈((max 1 (pyRound (max epsClamp L / pix)) : ℤ) : ℚ) / (m : ℚ)⌉ else 1)
    (hclamp : epsClamp ≤ L / (n : ℚ)) :
    max 1 (pyRound (max epsClamp (L / (n : ℚ)) / pix)) ≤ m := by
  by_cases hcase : m < max 1 (pyRound (max epsClamp L / pix))
  · rw [if_pos hcase] at hn
    have hmQ : (0 : ℚ) < (m : ℚ) := by exact_mod_cast lt_of_lt_of_le Int.zero_lt_one hm
    have hwm : (1 : ℚ) < ((max 1 (pyRound (max epsClamp L / pix)) : ℤ) : ℚ) / (m : ℚ) := by
      rw [one_lt_div hmQ]
      exact_mod_cast hcase
    have hn2 : 2 ≤ n := by
      have h1 : (1 : ℤ) < ⌈((max 1 (pyRound (max epsClamp L / pix)) : ℤ) : ℚ) / (m : ℚ)⌉ :=
        Int.lt_ceil.mpr (by exact_mod_cast hwm)
      omega
    have hnQ : (0 : ℚ) < (n : ℚ) := by
      have : (0 : ℤ) < n := by omega
      exact_mod_cast this
    have hn2Q : (2 : ℚ) ≤ (n : ℚ) := by exact_mod_cast hn2
    have hLn : L / (n : ℚ) ≤ L := div_le_self hL.le (by linarith)
    have hepsL : epsClamp ≤ L := le_trans hclamp hLn
    have hmaxL : max epsClamp L = L := max_eq_right hepsL
    rw [hmaxL] at hcase hn
    have hp : max 1 (pyRound (L / pix)) = pyRound (L / pix) := by
      rcases max_cases (1 : ℤ) (pyRound (L / pix)) with ⟨he, _⟩ | ⟨he, _⟩
      · rw [he] at hcase
        omega
      · exact he
    rw [hp] at hcase hn
    have hup : L / pix - 1 / 2 ≤ ((pyRound (L / pix) : ℤ) : ℚ) :=
      sub_half_le_pyRound (L / pix)
    have hceil : ((pyRound (L / pix) : ℤ) : ℚ) / (m : ℚ) ≤ (n : ℚ) := by
      rw [hn]
      exact_mod_cast Int.le_ceil _
    have hpnm : ((pyRound (L / pix) : ℤ) : ℚ) ≤ (n : ℚ) * (m : ℚ) := by
      rw [div_le_iff₀ hmQ] at hceil
      linarith
    have hmaxLn : max epsClamp (L / (n : ℚ)) = L / (n : ℚ) := max_eq_right hclamp
    rw [hmaxLn]
    apply max_le hm
    apply pyRound_le_of_lt_add_half
    rw [div_right_comm L (n : ℚ) pix, div_lt_iff₀ hnQ]
    nlinarith [hup, hpnm, hn2Q]
  · rw [if_neg hcase] at hn
    subst hn
    rw [Int.cast_one, div_one]
    exact le_of_not_lt hcase

/-- C2 (amended): every tile of the plan, re-measured by
`compute_size_from_bbox_and_pixels`, fits within the per-axis maxima,
provided each tile's width and height are at least the `1e-9` degeneracy
clamp of `compute_size_from_bbox_and_pixels` (without this proviso the claim
fails, see the counterexample). -/
theorem plan_tiles_px_within_max (b : BBox) (pix_x pix_y : ℚ) (max_w max_h : ℤ)
    (hpx : 0 < pix_x) (hpy : 0 < pix_y) (hmw : 1 ≤ max_w) (hmh : 1 ≤ max_h)
    (hx : b.x1 < b.x2) (hy : b.y1 < b.y2)
    (hclampx : epsClamp ≤ (b.x2 - b.x1) /
      (((tile_counts (compute_size_from_bbox_and_pixels b pix_x pix_y).1
        (compute_size_from_bbox_and_pixels b pix_x pix_y).2 max_w max_h).1 : ℤ) : ℚ))
    (hclampy : epsClamp ≤ (b.y2 - b.y1) /
      (((tile_counts (compute_size_from_bbox_and_pixels b pix_x pix_y).1
        (compute_size_from_bbox_and_pixels b pix_x pix_y).2 max_w max_h).2 : ℤ) : ℚ)) :
    ∀ t ∈ plan_tiles b pix_x pix_y max_w max_h,
      (compute_size_from_bbox_and_pixels t pix_x pix_y).1 ≤ max_w ∧
      (compute_size_from_bbox_and_pixels t pix_x pix_y).2 ≤ max_h := by
  intro t ht
  set nc := tile_counts (compute_size_from_bbox_and_pixels b pix_x pix_y).1
    (compute_size_from_bbox_and_pixels b pix_x pix_y).2 max_w max_h with hnc
  have hnx1 : 1 ≤ nc.1 := one_le_axis_count _ max_w hmw
  have hny1 : 1 ≤ nc.2 := one_le_axis_count _ max_h hmh
  have hplan : plan_tiles b pix_x pix_y max_w max_h =
      subdivide_bbox b nc.1.toNat nc.2.toNat := rfl
  rw [hplan] at ht
  obtain ⟨iy, hiy, ix, hix, rfl⟩ := mem_subdivide_bbox.mp ht
  have hcast1 : ((nc.1.toNat : ℕ) : ℚ) = ((nc.1 : ℤ) : ℚ) := by
    have h0 : (0 : ℤ) ≤ nc.1 := by omega
    exact_mod_cast congrArg (fun z : ℤ => (z : ℚ)) (Int.toNat_of_nonneg h0)
  have hcast2 : ((nc.2.toNat : ℕ) : ℚ) = ((nc.2 : ℤ) : ℚ) := by
    have h0 : (0 : ℤ) ≤ nc.2 := by omega
    exact_mod_cast congrArg (fun z : ℤ => (z : ℚ)) (Int.toNat_of_nonneg h0)
  have htw : (tileAt b nc.1.toNat nc.2.toNat ix iy).x2 -
      (tileAt b nc.1.toNat nc.2.toNat ix iy).x1 =
      (b.x2 - b.x1) / ((nc.1.toNat : ℕ) : ℚ) := by
    unfold tileAt
    ring
  have hth : (tileAt b nc.1.toNat nc.2.toNat ix iy).y2 -
      (tileAt b nc.1.toNat nc.2.toNat ix iy).y1 =
      (b.y2 - b.y1) / ((nc.2.toNat : ℕ) : ℚ) := by
    unfold tileAt
    ring
  constructor
  · rw [compute_size_fst, htw, hcast1]
    exact axis_tile_px_le hpx hmw (sub_pos.mpr hx) nc.1 rfl hclampx
  · rw [compute_size_snd, hth, hcast2]
    exact axis_tile_px_le hpy hmh (sub_pos.mpr hy) nc.2 rfl hclampy

/-- C2 counterexample: for the degenerate-thin rectangle
`(0, 0, 5e-10, 1)` with pixel sizes `1e-13 × 1` and maxima `5000 × 5000`
the total grid is `10000 × 1`, so the rectangle is split into two tiles,
but each tile's width is re-clamped up to `1e-9` and its recomputed pixel
width is `10000 > 5000`. -/
theorem plan_tiles_px_within_max_cex :
    ¬ (∀ t ∈ plan_tiles ⟨0, 0, 5 / 10 ^ 10, 1⟩ (1 / 10 ^ 13) 1 5000 5000,
        (compute_size_from_bbox_and_pixels t (1 / 10 ^ 13) 1).1 ≤ 5000 ∧
        (compute_size_from_bbox_and_pixels t (1 / 10 ^ 13) 1).2 ≤ 5000) := by
  intro h
  have hsz : compute_size_from_bbox_and_pixels ⟨0, 0, 5 / 10 ^ 10, 1⟩
      (1 / 10 ^ 13) 1 = (10000, 1) := by
    have h1 : (compute_size_from_bbox_and_pixels ⟨0, 0, 5 / 10 ^ 10, 1⟩
        (1 / 10 ^ 13) 1).1 = 10000 := by
      rw [compute_size_fst]
      have e1 : max epsClamp ((5 : ℚ) / 10 ^ 10 - 0) = epsClamp := by
        rw [max_eq_left]
        unfold epsClamp
        norm_num
      rw [e1, pyRound_intValue _ 10000 (by unfold epsClamp; norm_num)]
      norm_num
    have h2 : (compute_size_from_bbox_and_pixels ⟨0, 0, 5 / 10 ^ 10, 1⟩
        (1 / 10 ^ 13) 1).2 = 1 := by
      rw [compute_size_snd]
      have e2 : max epsClamp ((1 : ℚ) - 0) = 1 := by
        rw [max_eq_right (by unfold epsClamp; norm_num : epsClamp ≤ (1 : ℚ) - 0)]
        norm_num
      rw [e2, pyRound_intValue _ 1 (by norm_num)]
      norm_num
    exact Prod.ext h1 h2
  have hcounts : tile_counts 10000 1 5000 5000 = (2, 1) := by
    unfold tile_counts
    rw [if_pos (by norm_num : (5000 : ℤ) < 10000),
      if_neg (by norm_num : ¬ (5000 : ℤ) < 1),
      ceil_intValue _ 2 (by norm_num)]
  have hplan : plan_tiles ⟨0, 0, 5 / 10 ^ 10, 1⟩ (1 / 10 ^ 13) 1 5000 5000 =
      subdivide_bbox ⟨0, 0, 5 / 10 ^ 10, 1⟩ 2 1 := by
    have h1 : tile_counts
        (compute_size_from_bbox_and_pixels ⟨0, 0, 5 / 10 ^ 10, 1⟩ (1 / 10 ^ 13) 1).1
        (compute_size_from_bbox_and_pixels ⟨0, 0, 5 / 10 ^ 10, 1⟩ (1 / 10 ^ 13) 1).2
        5000 5000 = (2, 1) := by
      rw [hsz]
      exact hcounts
    show subdivide_bbox _ (tile_counts _ _ 5000 5000).1.toNat
      (tile_counts _ _ 5000 5000).2.toNat = _
    rw [h1]
    rfl
  have hmem : tileAt ⟨0, 0, 5 / 10 ^ 10, 1⟩ 2 1 0 0 ∈
      plan_tiles ⟨0, 0, 5 / 10 ^ 10, 1⟩ (1 / 10 ^ 13) 1 5000 5000 := by
    rw [hplan]
    exact mem_subdivide_bbox.mpr ⟨0, by norm_num, 0, by norm_num, rfl⟩
  have ht0 : tileAt ⟨0, 0, 5 / 10 ^ 10, 1⟩ 2 1 0 0 =
      (⟨0, 0, 1 / 4000000000, 1⟩ : BBox) := by
    unfold tileAt
    norm_num
  have hsz0 : (compute_size_from_bbox_and_pixels (⟨0, 0, 1 / 4000000000, 1⟩ : BBox)
      (1 / 10 ^ 13) 1).1 = 10000 := by
    rw [compute_size_fst]
    have e1 : max epsClamp ((1 : ℚ) / 4000000000 - 0) = epsClamp := by
      rw [max_eq_left]
      unfold epsClamp
      norm_num
    rw [e1, pyRound_intValue _ 10000 (by unfold epsClamp; norm_num)]
    norm_num
  have hc := (h _ hmem).1
  rw [ht0, hsz0] at hc
  norm_num at hc

/-- Witness for the amended C2 at the rectangle `(0, 0, 1000, 1000)` with
unit pixels and maxima `500 × 500`: a `2 × 2` plan of `500 × 500`-pixel
tiles. -/
theorem plan_tiles_px_within_max_witness :
    ((0 : ℚ) < 1 ∧ (1 : ℤ) ≤ 500 ∧
      (⟨0, 0, 1000, 1000⟩ : BBox).x1 < (⟨0, 0, 1000, 1000⟩ : BBox).x2) ∧
    ∀ t ∈ plan_tiles ⟨0, 0, 1000, 1000⟩ 1 1 500 500,
      (compute_size_from_bbox_and_pixels t 1 1).1 ≤ 500 ∧
      (compute_size_from_bbox_and_pixels t 1 1).2 ≤ 500 := by
  have hsz : compute_size_from_bbox_and_pixels ⟨0, 0, 1000, 1000⟩ 1 1 =
      (1000, 1000) := by
    have h1 : (compute_size_from_bbox_and_pixels ⟨0, 0, 1000, 1000⟩ 1 1).1 = 1000 := by
      rw [compute_size_fst]
      have e1 : max epsClamp ((1000 : ℚ) - 0) = 1000 := by
        rw [max_eq_right (by unfold epsClamp; norm_num : epsClamp ≤ (1000 : ℚ) - 0)]
        norm_num
      rw [e1, pyRound_intValue _ 1000 (by norm_num)]
      norm_num
    have h2 : (compute_size_from_bbox_and_pixels ⟨0, 0, 1000, 1000⟩ 1 1).2 = 1000 := by
      rw [compute_size_snd]
      have e2 : max epsClamp ((1000 : ℚ) - 0) = 1000 := by
        rw [max_eq_right (by unfold epsClamp; norm_num : epsClamp ≤ (1000 : ℚ) - 0)]
        norm_num
      rw [e2, pyRound_intValue _ 1000 (by norm_num)]
      norm_num
    exact Prod.ext h1 h2
  have hcounts : tile_counts
      (compute_size_from_bbox_and_pixels ⟨0, 0, 1000, 1000⟩ 1 1).1
      (compute_size_from_bbox_and_pixels ⟨0, 0, 1000, 1000⟩ 1 1).2
      500 500 = (2, 2) := by
    rw [hsz]
    unfold tile_counts
    rw [if_pos (by norm_num : (500 : ℤ) < 1000),
      ceil_intValue _ 2 (by norm_num)]
  refine ⟨⟨by norm_num, by norm_num, by norm_num⟩, ?_⟩
  exact plan_tiles_px_within_max ⟨0, 0, 1000, 1000⟩ 1 1 500 500
    (by norm_num) (by norm_num) (by norm_num) (by norm_num) (by norm_num) (by norm_num)
    (by rw [hcounts]; unfold epsClamp; norm_num)
    (by rw [hcounts]; unfold epsClamp; norm_num)

/-- C3 counterexample: for the rectangle `(0, 0, 5e-10, 1)` and pixel size
`1e-10`, the code clamps the width up to `1e-9` and returns `10` pixels,
whereas the claimed formula `max(1, round((x2 - x1)/pix_x))` gives `5`. -/
theorem compute_size_formula_cex :
    ¬ ((compute_size_from_bbox_and_pixels ⟨0, 0, 5 / 10 ^ 10, 1⟩ (1 / 10 ^ 10) 1).1 =
        max 1 (pyRound (((5 / 10 ^ 10 : ℚ) - 0) / (1 / 10 ^ 10)))) := by
  have h1 : (compute_size_from_bbox_and_pixels ⟨0, 0, 5 / 10 ^ 10, 1⟩
      (1 / 10 ^ 10) 1).1 = 10 := by
    rw [compute_size_fst]
    have e1 : max epsClamp ((5 : ℚ) / 10 ^ 10 - 0) = epsClamp := by
      rw [max_eq_left]
      unfold epsClamp
      norm_num
    rw [e1, pyRound_intValue _ 10 (by unfold epsClamp; norm_num)]
    norm_num
  have h2 : max 1 (pyRound (((5 / 10 ^ 10 : ℚ) - 0) / (1 / 10 ^ 10))) = 5 := by
    rw [pyRound_intValue _ 5 (by norm_num)]
    norm_num
  rw [h1, h2]
  norm_num

/-- C3 (amended): the derived pixel grid is always at least `1 × 1`, and it
equals `max(1, round((x2 - x1)/pix_x)) × max(1, round((y2 - y1)/pix_y))`
whenever the rectangle's width and height are at least the `1e-9` degeneracy
clamp (the unstated extra rounding step of the code; see the
counterexample for why the proviso is needed). -/
theorem compute_size_formula_amended (b : BBox) (pix_x pix_y : ℚ)
    (_hpx : 0 < pix_x) (_hpy : 0 < pix_y) :
    1 ≤ (compute_size_from_bbox_and_pixels b pix_x pix_y).1 ∧
    1 ≤ (compute_size_from_bbox_and_pixels b pix_x pix_y).2 ∧
    (epsClamp ≤ b.x2 - b.x1 →
      (compute_size_from_bbox_and_pixels b pix_x pix_y).1 =
        max 1 (pyRound ((b.x2 - b.x1) / pix_x))) ∧
    (epsClamp ≤ b.y2 - b.y1 →
      (compute_size_from_bbox_and_pixels b pix_x pix_y).2 =
        max 1 (pyRound ((b.y2 - b.y1) / pix_y))) := by
  refine ⟨?_, ?_, ?_, ?_⟩
  · rw [compute_size_fst]
    exact le_max_left 1 _
  · rw [compute_size_snd]
    exact le_max_left 1 _
  · intro hcl
    rw [compute_size_fst, max_eq_right hcl]
  · intro hcl
    rw [compute_size_snd, max_eq_right hcl]

/-- Witness for the amended C3 at the rectangle `(0, 0, 2, 3)` with unit
pixel sizes. -/
theorem compute_size_formula_amended_witness :
    ((0 : ℚ) < 1) ∧
    1 ≤ (compute_size_from_bbox_and_pixels ⟨0, 0, 2, 3⟩ 1 1).1 ∧
    1 ≤ (compute_size_from_bbox_and_pixels ⟨0, 0, 2, 3⟩ 1 1).2 :=
  ⟨by norm_num,
    (compute_size_formula_amended ⟨0, 0, 2, 3⟩ 1 1 (by norm_num) (by norm_num)).1,
    (compute_size_formula_amended ⟨0, 0, 2, 3⟩ 1 1 (by norm_num) (by norm_num)).2.1⟩

/-- A `1 × 1` subdivision returns the parent rectangle as the single tile. -/
theorem subdivide_bbox_one_one (b : BBox) : subdivide_bbox b 1 1 = [b] := by
  obtain ⟨x1, y1, x2, y2⟩ := b
  unfold subdivide_bbox
  rw [show List.range 1 = [0] by decide]
  simp only [List.flatMap_cons, List.flatMap_nil, List.append_nil, List.map_cons,
    List.map_nil, Nat.cast_zero, Nat.cast_one, zero_mul, add_zero, zero_add, one_mul,
    div_one, List.cons.injEq, and_true, BBox.mk.injEq]
  refine ⟨trivial, trivial, by ring, by ring⟩

/-- C4: when the derived total pixel grid already fits the per-axis maxima,
`tile_counts` returns `(1, 1)` and the plan is the single-entry list holding
the parent rectangle itself. -/
theorem single_tile_plan (b : BBox) (pix_x pix_y : ℚ) (max_w max_h : ℤ)
    (hw : (compute_size_from_bbox_and_pixels b pix_x pix_y).1 ≤ max_w)
    (hh : (compute_size_from_bbox_and_pixels b pix_x pix_y).2 ≤ max_h) :
    tile_counts (compute_size_from_bbox_and_pixels b pix_x pix_y).1
      (compute_size_from_bbox_and_pixels b pix_x pix_y).2 max_w max_h = (1, 1) ∧
    plan_tiles b pix_x pix_y max_w max_h = [b] := by
  have h1 : tile_counts (compute_size_from_bbox_and_pixels b pix_x pix_y).1
      (compute_size_from_bbox_and_pixels b pix_x pix_y).2 max_w max_h = (1, 1) := by
    unfold tile_counts
    rw [if_neg (not_lt.mpr hw), if_neg (not_lt.mpr hh)]
  refine ⟨h1, ?_⟩
  have hplan : plan_tiles b pix_x pix_y max_w max_h =
      subdivide_bbox b
        (tile_counts (compute_size_from_bbox_and_pixels b pix_x pix_y).1
          (compute_size_from_bbox_and_pixels b pix_x pix_y).2 max_w max_h).1.toNat
        (tile_counts (compute_size_from_bbox_and_pixels b pix_x pix_y).1
          (compute_size_from_bbox_and_pixels b pix_x pix_y).2 max_w max_h).2.toNat := rfl
  rw [hplan, h1]
  exact subdivide_bbox_one_one b

/-- Witness for C4 at the rectangle `(0, 0, 10, 10)`, unit pixels,
maxima `100 × 100`. -/
theorem single_tile_plan_witness :
    ((compute_size_from_bbox_and_pixels ⟨0, 0, 10, 10⟩ 1 1).1 ≤ 100 ∧
      (compute_size_from_bbox_and_pixels ⟨0, 0, 10, 10⟩ 1 1).2 ≤ 100) ∧
    plan_tiles ⟨0, 0, 10, 10⟩ 1 1 100 100 = [⟨0, 0, 10, 10⟩] := by
  have hsz1 : (compute_size_from_bbox_and_pixels ⟨0, 0, 10, 10⟩ 1 1).1 = 10 := by
    rw [compute_size_fst]
    rw [max_eq_right (by unfold epsClamp; norm_num : epsClamp ≤ (10 : ℚ) - 0)]
    rw [pyRound_intValue _ 10 (by norm_num)]
    norm_num
  have hsz2 : (compute_size_from_bbox_and_pixels ⟨0, 0, 10, 10⟩ 1 1).2 = 10 := by
    rw [compute_size_snd]
    rw [max_eq_right (by unfold epsClamp; norm_num : epsClamp ≤ (10 : ℚ) - 0)]
    rw [pyRound_intValue _ 10 (by norm_num)]
    norm_num
  refine ⟨⟨by rw [hsz1]; norm_num, by rw [hsz2]; norm_num⟩, ?_⟩
  exact (single_tile_plan ⟨0, 0, 10, 10⟩ 1 1 100 100
    (by rw [hsz1]; norm_num) (by rw [hsz2]; norm_num)).2

/-- C5: with a declared extent, clipping fails with the out-of-extent error
exactly when the requested rectangle and the extent are disjoint as point
sets; otherwise it succeeds and returns exactly the point-set intersection
of the two rectangles. -/
theorem clip_bbox_intersection (b e : BBox)
    (_hbx : b.x1 ≤ b.x2) (_hby : b.y1 ≤ b.y2) (_hex : e.x1 ≤ e.x2)
    (_hey : e.y1 ≤ e.y2) :
    ((clip_bbox_to_service_extent b (some e) =
        Except.error "Requested bbox is outside the service extent.") ↔
      ∀ px py, ¬ (memRect b px py ∧ memRect e px py)) ∧
    ∀ r, clip_bbox_to_service_extent b (some e) = Except.ok r →
      ∀ px py, memRect r px py ↔ (memRect b px py ∧ memRect e px py) := by
  simp only [clip_bbox_to_service_extent]
  by_cases hc : min b.x2 e.x2 < max b.x1 e.x1 ∨ min b.y2 e.y2 < max b.y1 e.y1
  · rw [if_pos hc]
    constructor
    · constructor
      · intro _ px py hmem
        obtain ⟨⟨hb1, hb2, hb3, hb4⟩, he1, he2, he3, he4⟩ := hmem
        rcases hc with h | h
        · have hm1 : max b.x1 e.x1 ≤ px := max_le hb1 he1
          have hm2 : px ≤ min b.x2 e.x2 := le_min hb2 he2
          linarith
        · have hm1 : max b.y1 e.y1 ≤ py := max_le hb3 he3
          have hm2 : py ≤ min b.y2 e.y2 := le_min hb4 he4
          linarith
      · intro _
        rfl
    · intro r hr
      exact absurd hr (by simp)
  · rw [if_neg hc]
    push_neg at hc
    obtain ⟨hcx, hcy⟩ := hc
    constructor
    · constructor
      · intro he
        exact absurd he (by simp)
      · intro hall
        exfalso
        apply hall (max b.x1 e.x1) (max b.y1 e.y1)
        refine ⟨⟨le_max_left _ _, le_trans hcx (min_le_left _ _),
          le_max_left _ _, le_trans hcy (min_le_left _ _)⟩,
          le_max_right _ _, le_trans hcx (min_le_right _ _),
          le_max_right _ _, le_trans hcy (min_le_right _ _)⟩
    · intro r hr px py
      injection hr with hr'
      subst hr'
      unfold memRect
      simp only [max_le_iff, le_min_iff]
      tauto

/-- Witness for C5 with the overlapping rectangles `(0, 0, 2, 2)` and
`(1, 1, 3, 3)`. -/
theorem clip_bbox_intersection_witness :
    ((0 : ℚ) ≤ 2 ∧ (1 : ℚ) ≤ 3) ∧
    ∀ r, clip_bbox_to_service_extent ⟨0, 0, 2, 2⟩ (some ⟨1, 1, 3, 3⟩) =
        Except.ok r →
      ∀ px py, memRect r px py ↔
        (memRect ⟨0, 0, 2, 2⟩ px py ∧ memRect ⟨1, 1, 3, 3⟩ px py) :=
  ⟨⟨by norm_num, by norm_num⟩,
    (clip_bbox_intersection ⟨0, 0, 2, 2⟩ ⟨1, 1, 3, 3⟩
      (by norm_num) (by norm_num) (by norm_num) (by norm_num)).2⟩

/-- C6: the pre-clip rectangle built for a buffered point is the square
`(x - d, y - d, x + d, y + d)`: side `2d` in both axes, centered on `(x, y)`. -/
theorem buffered_point_square (x y d : ℚ) :
    buffered_point_bbox x y d = ⟨x - d, y - d, x + d, y + d⟩ ∧
    rectWidth (buffered_point_bbox x y d) = 2 * d ∧
    rectHeight (buffered_point_bbox x y d) = 2 * d ∧
    ((buffered_point_bbox x y d).x1 + (buffered_point_bbox x y d).x2) / 2 = x ∧
    ((buffered_point_bbox x y d).y1 + (buffered_point_bbox x y d).y2) / 2 = y := by
  unfold buffered_point_bbox rectWidth rectHeight
  exact ⟨rfl, by ring, by ring, by ring, by ring⟩

/-- C7: every export request carries the service's native reference system
identifier as both `bboxSR` and `imageSR`, and always requests
nearest-neighbor resampling. -/
theorem export_params_native_sr (service : ServiceInfo) (bbox_native : BBox)
    (size : ℤ × ℤ) (token : Option String) :
    (export_image_params service bbox_native size token).bboxSR =
      toString service.wkid ∧
    (export_image_params service bbox_native size token).imageSR =
      toString service.wkid ∧
    (export_image_params service bbox_native size token).bboxSR =
      (export_image_params service bbox_native size token).imageSR ∧
    (export_image_params service bbox_native size token).interpolation =
      "RSP_NearestNeighbor" :=
  ⟨rfl, rfl, rfl, rfl⟩

/-- When no export fails, the export loop exports every tile and succeeds. -/
theorem export_loop_ok (exportFails : ℕ → Bool) :
    ∀ l : List ℕ, (∀ i ∈ l, exportFails i = false) →
      export_loop exportFails l = (l.map ExportEvent.exported, true)
  | [], _ => rfl
  | i :: rest, h => by
    have hi : exportFails i = false := h i (List.mem_cons_self i rest)
    have hrest := export_loop_ok exportFails rest
      (fun j hj => h j (List.mem_cons_of_mem i hj))
    unfold export_loop
    rw [hi]
    simp only [Bool.false_eq_true, if_false, hrest, List.map_cons]

/-- C8 counterexample: when the only tile's export fails, the run aborts with
no cleanup attempt at all — fragment cleanup is *not* attempted on the
failure path. -/
theorem cleanup_failure_path_cex :
    (run_bbox_model 1 (fun _ => true) false (fun _ => false)).2 = false ∧
    (run_bbox_model 1 (fun _ => true) false (fun _ => false)).1 =
      [ExportEvent.exportFailed 0] ∧
    ∀ i failed, ExportEvent.unlinkAttempted i failed ∉
      (run_bbox_model 1 (fun _ => true) false (fun _ => false)).1 := by
  have h : run_bbox_model 1 (fun _ => true) false (fun _ => false) =
      ([ExportEvent.exportFailed 0], false) := by
    unfold run_bbox_model
    rw [show List.range 1 = [0] by decide]
    rfl
  refine ⟨by rw [h], by rw [h], ?_⟩
  intro i failed hmem
  rw [h] at hmem
  simp only [List.mem_singleton] at hmem
  exact ExportEvent.noConfusion hmem

/-- C8 (amended): on the success path (no export failure, fragments not
kept), cleanup is attempted for every fragment, and a failing deletion —
swallowed by the `try`/`except` — never escalates: the run still succeeds
for every pattern of deletion failures.  On the failure path no cleanup is
attempted (see the counterexample). -/
theorem cleanup_success_path (n : ℕ) (exportFails unlinkFails : ℕ → Bool)
    (hok : ∀ i < n, exportFails i = false) :
    (run_bbox_model n exportFails false unlinkFails).2 = true ∧
    ∀ i < n, ExportEvent.unlinkAttempted i (unlinkFails i) ∈
      (run_bbox_model n exportFails false unlinkFails).1 := by
  have hloop := export_loop_ok exportFails (List.range n)
    (fun i hi => hok i (List.mem_range.mp hi))
  have hrun : run_bbox_model n exportFails false unlinkFails =
      (List.map ExportEvent.exported (List.range n) ++ [ExportEvent.wroteCog] ++
        List.map (fun i => ExportEvent.unlinkAttempted i (unlinkFails i))
          (List.range n), true) := by
    unfold run_bbox_model
    rw [hloop]
    rfl
  refine ⟨by rw [hrun], ?_⟩
  intro i hi
  rw [hrun]
  exact List.mem_append_right _ (List.mem_map.mpr ⟨i, List.mem_range.mpr hi, rfl⟩)

/-- Witness for the amended C8: two tiles, no export failure, every deletion
failing; the run still succeeds and both cleanups are attempted. -/
theorem cleanup_success_path_witness :
    (∀ i < 2, (fun _ : ℕ => false) i = false) ∧
    (run_bbox_model 2 (fun _ => false) false (fun _ => true)).2 = true ∧
    ∀ i < 2, ExportEvent.unlinkAttempted i ((fun _ : ℕ => true) i) ∈
      (run_bbox_model 2 (fun _ => false) false (fun _ => true)).1 :=
  ⟨fun _ _ => rfl,
    (cleanup_success_path 2 (fun _ => false) (fun _ => true) (fun _ _ => rfl)).1,
    (cleanup_success_path 2 (fun _ => false) (fun _ => true) (fun _ _ => rfl)).2⟩

/-- C9: a request touching the declared extent only along a shared edge or
corner (nonempty but zero-area closed intersection) is not rejected:
clipping returns a degenerate rectangle with `minX = maxX` or `minY = maxY`,
and the pixel-grid derivation on that degenerate rectangle is still total
and yields at least `1 × 1`. -/
theorem clip_degenerate_touch (b e : BBox)
    (_hbx : b.x1 ≤ b.x2) (_hby : b.y1 ≤ b.y2) (_hex : e.x1 ≤ e.x2)
    (_hey : e.y1 ≤ e.y2)
    (hne : max b.x1 e.x1 ≤ min b.x2 e.x2 ∧ max b.y1 e.y1 ≤ min b.y2 e.y2)
    (hdeg : max b.x1 e.x1 = min b.x2 e.x2 ∨ max b.y1 e.y1 = min b.y2 e.y2) :
    ∃ r, clip_bbox_to_service_extent b (some e) = Except.ok r ∧
      (r.x1 = r.x2 ∨ r.y1 = r.y2) ∧
      ∀ pix_x pix_y : ℚ,
        1 ≤ (compute_size_from_bbox_and_pixels r pix_x pix_y).1 ∧
        1 ≤ (compute_size_from_bbox_and_pixels r pix_x pix_y).2 := by
  refine ⟨⟨max b.x1 e.x1, max b.y1 e.y1, min b.x2 e.x2, min b.y2 e.y2⟩, ?_, ?_, ?_⟩
  · simp only [clip_bbox_to_service_extent]
    rw [if_neg]
    push_neg
    exact ⟨hne.1, hne.2⟩
  · exact hdeg
  · intro pix_x pix_y
    constructor
    · rw [compute_size_fst]
      exact le_max_left 1 _
    · rw [compute_size_snd]
      exact le_max_left 1 _

/-- Witness for C9: the rectangles `(0, 0, 1, 1)` and `(1, 0, 2, 1)` share
exactly the vertical edge `x = 1`. -/
theorem clip_degenerate_touch_witness :
    (max (0 : ℚ) 1 ≤ min (1 : ℚ) 2 ∧ max (0 : ℚ) 0 ≤ min (1 : ℚ) 1) ∧
    ∃ r, clip_bbox_to_service_extent ⟨0, 0, 1, 1⟩ (some ⟨1, 0, 2, 1⟩) =
        Except.ok r ∧
      (r.x1 = r.x2 ∨ r.y1 = r.y2) ∧
      ∀ pix_x pix_y : ℚ,
        1 ≤ (compute_size_from_bbox_and_pixels r pix_x pix_y).1 ∧
        1 ≤ (compute_size_from_bbox_and_pixels r pix_x pix_y).2 :=
  ⟨⟨by norm_num, by norm_num⟩,
    clip_degenerate_touch ⟨0, 0, 1, 1⟩ ⟨1, 0, 2, 1⟩
      (by norm_num) (by norm_num) (by norm_num) (by norm_num)
      (by constructor <;> norm_num) (by left; norm_num)⟩

/-- C10: when the service metadata declares no extent, clipping returns the
input rectangle unchanged and never raises. -/
theorem clip_no_extent_identity (b : BBox) :
    clip_bbox_to_service_extent b none = Except.ok b := rfl

end PhoenixImagery
